import Mathlib

/-!
Shallow embedding of `ESP32FirmwareDownloader` (src/ESP32FirmwareDownloader.cpp,
src/ESP32FirmwareDownloader.h) for verification of its specification.

Flash reads/writes and the ESP-IDF OTA primitives are modelled by explicit
environments (the flash contents as a byte function, and success oracles for
each fallible primitive); the handlers become pure functions from an
environment and the handler's static state to a result, together with a trace
of the flash operations they performed.
-/

namespace ESP32FWDL

/-- Partition class, mirroring `ESP_PARTITION_TYPE_APP` / `ESP_PARTITION_TYPE_DATA`. -/
inductive PType where
  | app
  | data
deriving DecidableEq

/-- A row of the partition table: `esp_partition_t`'s fields used by the code. -/
structure Partition where
  ptype : PType
  label : String
  address : Nat
  size : Nat
deriving DecidableEq

/-- `esp_partition_find_first(type, ESP_PARTITION_SUBTYPE_ANY, label)`:
first partition of the given class whose label matches (any label when `none`). -/
def esp_partition_find_first (table : List Partition) (t : PType) (label : Option String) :
    Option Partition :=
  table.find? fun p =>
    p.ptype == t && (match label with | none => true | some l => p.label == l)

/-- The iterator loop of `cloneActiveToInactive` / `handleActivatePartition`:
walk the APP partitions in table order and take the first whose base address
differs from the running partition's. -/
def findInactive (table : List Partition) (running : Partition) : Option Partition :=
  (table.filter fun p => p.ptype == PType.app).find? fun p => p.address != running.address

theorem findInactive_app_ne_running {table : List Partition} {running p : Partition}
    (h : findInactive table running = some p) :
    p.ptype = PType.app ∧ p.address ≠ running.address := by
  unfold findInactive at h
  have hmem := List.mem_of_find?_eq_some h
  have hpred := List.find?_some h
  rw [List.mem_filter] at hmem
  refine ⟨by simpa using hmem.2, ?_⟩
  simpa using hpred

/-! ## Blank (redaction) regions -/

/-- `ESP32FirmwareDownloader::BlankRegion`. -/
structure BlankRegion where
  offset : Nat
  length : Nat
  description : String
deriving DecidableEq

/-- `MAX_BLANK_REGIONS` from the header. -/
def MAX_BLANK_REGIONS : Nat := 4

/-- `ESP32FirmwareDownloader::addBlankRegion`: append the region if the table
has room (`_numBlankRegions < MAX_BLANK_REGIONS`), otherwise leave it alone. -/
def addBlankRegion (regs : List BlankRegion) (offset length : Nat) (descr : String) :
    List BlankRegion :=
  if regs.length < MAX_BLANK_REGIONS then regs ++ [⟨offset, length, descr⟩] else regs

/-- `ESP32FirmwareDownloader::setBlankRegion`: reset `_numBlankRegions` to 0,
then add the manual region. -/
def setBlankRegion (regs : List BlankRegion) (offset length : Nat) : List BlankRegion :=
  addBlankRegion [] offset length "manual"

/-- `ESP32FirmwareDownloader::autoSetUserDataBlank`: when a DATA partition
labelled "userdata" exists, reset the table and add that partition's range;
otherwise report failure and leave the table untouched. -/
def autoSetUserDataBlank (table : List Partition) (regs : List BlankRegion) :
    List BlankRegion × Bool :=
  match esp_partition_find_first table PType.data (some "userdata") with
  | some p => (addBlankRegion [] p.address p.size "userdata", true)
  | none => (regs, false)

/-- One iteration of `autoSetUserDataBlankAll`'s loop body: look the label up
among the DATA partitions and, when found, add its range and record success. -/
def blankAllStep (table : List Partition) (acc : List BlankRegion × Bool) (l : String) :
    List BlankRegion × Bool :=
  match esp_partition_find_first table PType.data (some l) with
  | some p => (addBlankRegion acc.1 p.address p.size l, true)
  | none => acc

/-- `ESP32FirmwareDownloader::autoSetUserDataBlankAll`: for each of the labels
"nvs", "spiffs", "littlefs", add the matching DATA partition's range (without
resetting the table first). -/
def autoSetUserDataBlankAll (table : List Partition) (regs : List BlankRegion) :
    List BlankRegion × Bool :=
  ["nvs", "spiffs", "littlefs"].foldl (blankAllStep table) (regs, false)

/-! ## Redaction overlay and the dump stream callbacks -/

/-- The inner loop `for j in [0, overlapLen) tempBuffer[startInBuffer+j] = 0xFF`:
replace the bytes at positions `[s, e)` of the buffer with `0xFF`, positions
counted from `j0`. -/
def blankFrom (s e : Nat) : Nat → List Nat → List Nat
  | _, [] => []
  | j, b :: bs => (if s ≤ j ∧ j < e then 0xFF else b) :: blankFrom s e (j + 1) bs

/-- One iteration of the blank-region loop of `flashStreamCallbackBlanked`:
if the region overlaps the chunk window
(`chunkEnd > regionStart && chunkStart < regionEnd`), overwrite the overlap with `0xFF`.
With `chunkEnd = chunkStart + buf.length`, `overlapStart = max chunkStart r.offset`,
`overlapEnd = min chunkEnd (r.offset + r.length)`, `startInBuffer = overlapStart - chunkStart`
and `overlapLen = overlapEnd - overlapStart`, exactly as the source computes them. -/
def applyBlankRegion (chunkStart : Nat) (buf : List Nat) (r : BlankRegion) : List Nat :=
  if r.offset < chunkStart + buf.length ∧ chunkStart < r.offset + r.length then
    blankFrom (max chunkStart r.offset - chunkStart)
      ((max chunkStart r.offset - chunkStart) +
        (min (chunkStart + buf.length) (r.offset + r.length) - max chunkStart r.offset))
      0 buf
  else buf

/-- The full blank-region loop: apply every configured region in order. -/
def applyBlankRegions (chunkStart : Nat) (regions : List BlankRegion) (buf : List Nat) :
    List Nat :=
  regions.foldl (applyBlankRegion chunkStart) buf

/-- `CHUNK_SIZE` from the source. -/
def CHUNK_SIZE : Nat := 4096

/-- Configuration visible to the two full-flash dump callbacks: the flash
contents, its size (`g_flashSizeDirect`), a read-success oracle for
`esp_flash_read(start, len)`, and the configured blank regions. -/
structure DumpConfig where
  flashSize : Nat
  flash : Nat → Nat
  readOk : Nat → Nat → Bool
  regions : List BlankRegion

/-- `ESP32FirmwareDownloader::flashStreamCallback`: plain full-flash dump.
Returns the raw device bytes of the window `[index, index + min(size-index, maxLen))`,
empty past the end of flash or on a read failure. -/
def flashStreamCallback (cfg : DumpConfig) (maxLen index : Nat) : List Nat :=
  if cfg.flashSize ≤ index then []
  else
    let n := min (cfg.flashSize - index) maxLen
    if cfg.readOk index n then (List.range n).map fun j => cfg.flash (index + j)
    else []

/-- Number of bytes the secure callback serves for a given request:
`min(size - index, maxLen)` further capped at `CHUNK_SIZE`. -/
def secureChunkLen (cfg : DumpConfig) (maxLen index : Nat) : Nat :=
  min (min (cfg.flashSize - index) maxLen) CHUNK_SIZE

/-- `ESP32FirmwareDownloader::flashStreamCallbackBlanked`: secure full-flash
dump. Reads at most `CHUNK_SIZE` bytes into a scratch buffer, applies every
blank region, and returns the result. -/
def flashStreamCallbackBlanked (cfg : DumpConfig) (maxLen index : Nat) : List Nat :=
  if cfg.flashSize ≤ index then []
  else
    let n := secureChunkLen cfg maxLen index
    if cfg.readOk index n then
      applyBlankRegions index cfg.regions ((List.range n).map fun j => cfg.flash (index + j))
    else []

/-- Spec-side predicate: position `pos` (an absolute flash address) lies in the
closed-open intersection of the chunk window `[chunkStart, chunkStart+chunkLen)`
with some configured region `[r.offset, r.offset + r.length)`. -/
def redactedAt (regions : List BlankRegion) (chunkStart chunkLen pos : Nat) : Prop :=
  ∃ r ∈ regions,
    max chunkStart r.offset ≤ pos ∧ pos < min (chunkStart + chunkLen) (r.offset + r.length)

instance (regions : List BlankRegion) (chunkStart chunkLen pos : Nat) :
    Decidable (redactedAt regions chunkStart chunkLen pos) := by
  unfold redactedAt; infer_instance

theorem blankFrom_getElem? (s e : Nat) (bs : List Nat) (j0 i : Nat) :
    (blankFrom s e j0 bs)[i]? =
      bs[i]?.map (fun b => if s ≤ j0 + i ∧ j0 + i < e then 0xFF else b) := by
  induction bs generalizing j0 i with
  | nil => simp [blankFrom]
  | cons b bs ih =>
    cases i with
    | zero => simp [blankFrom]
    | succ i =>
      have harith : j0 + 1 + i = j0 + (i + 1) := by omega
      simp [blankFrom, ih (j0 + 1) i, harith]

theorem blankFrom_length (s e j0 : Nat) (bs : List Nat) :
    (blankFrom s e j0 bs).length = bs.length := by
  induction bs generalizing j0 with
  | nil => rfl
  | cons b bs ih => simp [blankFrom, ih]

theorem applyBlankRegion_length (cs : Nat) (buf : List Nat) (r : BlankRegion) :
    (applyBlankRegion cs buf r).length = buf.length := by
  unfold applyBlankRegion
  split
  · exact blankFrom_length _ _ _ _
  · rfl

theorem applyBlankRegion_getElem? (cs : Nat) (buf : List Nat) (r : BlankRegion) (i : Nat) :
    (applyBlankRegion cs buf r)[i]? =
      buf[i]?.map (fun b =>
        if max cs r.offset ≤ cs + i ∧
            cs + i < min (cs + buf.length) (r.offset + r.length) then 0xFF else b) := by
  unfold applyBlankRegion
  split
  case isTrue h =>
    rw [blankFrom_getElem?]
    cases hbi : buf[i]? with
    | none => simp
    | some b =>
      have hi : i < buf.length := by
        by_contra hge
        rw [List.getElem?_eq_none (by omega)] at hbi
        exact Option.noConfusion hbi
      simp only [Option.map_some']
      by_cases hc : max cs r.offset ≤ cs + i ∧
          cs + i < min (cs + buf.length) (r.offset + r.length)
      · rw [if_pos (by omega), if_pos hc]
      · rw [if_neg (by omega), if_neg hc]
  case isFalse h =>
    cases hbi : buf[i]? with
    | none => simp
    | some b =>
      have hi : i < buf.length := by
        by_contra hge
        rw [List.getElem?_eq_none (by omega)] at hbi
        exact Option.noConfusion hbi
      simp only [Option.map_some']
      rw [if_neg (by omega)]

theorem redactedAt_cons (r : BlankRegion) (rs : List BlankRegion) (cs len pos : Nat) :
    redactedAt (r :: rs) cs len pos ↔
      (max cs r.offset ≤ pos ∧ pos < min (cs + len) (r.offset + r.length)) ∨
        redactedAt rs cs len pos := by
  simp [redactedAt]

theorem applyBlankRegions_length (cs : Nat) (regions : List BlankRegion) (buf : List Nat) :
    (applyBlankRegions cs regions buf).length = buf.length := by
  induction regions generalizing buf with
  | nil => rfl
  | cons r rs ih =>
    simp only [applyBlankRegions, List.foldl_cons]
    rw [show List.foldl (applyBlankRegion cs) (applyBlankRegion cs buf r) rs =
          applyBlankRegions cs rs (applyBlankRegion cs buf r) from rfl]
    rw [ih, applyBlankRegion_length]

theorem applyBlankRegions_getElem? (cs : Nat) (regions : List BlankRegion) (buf : List Nat)
    (i : Nat) :
    (applyBlankRegions cs regions buf)[i]? =
      buf[i]?.map (fun b =>
        if redactedAt regions cs buf.length (cs + i) then 0xFF else b) := by
  induction regions generalizing buf with
  | nil =>
    simp only [applyBlankRegions, List.foldl_nil]
    cases hbi : buf[i]? with
    | none => simp
    | some b => simp [redactedAt]
  | cons r rs ih =>
    simp only [applyBlankRegions, List.foldl_cons]
    rw [show List.foldl (applyBlankRegion cs) (applyBlankRegion cs buf r) rs =
          applyBlankRegions cs rs (applyBlankRegion cs buf r) from rfl]
    rw [ih, applyBlankRegion_getElem?, applyBlankRegion_length, Option.map_map]
    cases hbi : buf[i]? with
    | none => simp
    | some b =>
      simp only [Option.map_some', Function.comp_apply]
      by_cases hr : max cs r.offset ≤ cs + i ∧
          cs + i < min (cs + buf.length) (r.offset + r.length)
      · by_cases hrs : redactedAt rs cs buf.length (cs + i)
        · rw [if_pos hrs, if_pos ((redactedAt_cons _ _ _ _ _).2 (Or.inl hr))]
        · rw [if_neg hrs, if_pos hr, if_pos ((redactedAt_cons _ _ _ _ _).2 (Or.inl hr))]
      · by_cases hrs : redactedAt rs cs buf.length (cs + i)
        · rw [if_pos hrs, if_pos ((redactedAt_cons _ _ _ _ _).2 (Or.inr hrs))]
        · rw [if_neg hrs, if_neg hr,
            if_neg (fun hcon => by
              rcases (redactedAt_cons _ _ _ _ _).1 hcon with h1 | h2
              · exact hr h1
              · exact hrs h2)]

/-- Full pointwise specification of one secure-dump chunk: the chunk has
exactly `secureChunkLen` bytes; a byte is `0xFF` exactly when its absolute
address lies in the intersection of the chunk window with some configured
region, and is the raw device byte otherwise. -/
def secureChunkSpec (cfg : DumpConfig) (maxLen index : Nat) : Prop :=
  (flashStreamCallbackBlanked cfg maxLen index).length = secureChunkLen cfg maxLen index ∧
  ∀ (j : Nat) (hj : j < (flashStreamCallbackBlanked cfg maxLen index).length),
    (flashStreamCallbackBlanked cfg maxLen index).get ⟨j, hj⟩ =
      if redactedAt cfg.regions index (secureChunkLen cfg maxLen index) (index + j) then 0xFF
      else cfg.flash (index + j)

/-- C3: for every chunk window returned by the secure streaming variant and
every configured redaction region, exactly the bytes in the closed-open
intersection `[max(index, offset), min(index+len, offset+length))` are replaced
with `0xFF`, and every byte of the chunk outside every region's intersection is
returned unchanged from the device; a region that does not overlap the chunk
leaves the chunk's bytes unchanged. -/
theorem flashStreamCallbackBlanked_redacts_exactly_intersections
    (cfg : DumpConfig) (maxLen index : Nat) (h1 : index < cfg.flashSize)
    (h2 : cfg.readOk index (secureChunkLen cfg maxLen index) = true) :
    secureChunkSpec cfg maxLen index := by
  have hne : ¬ cfg.flashSize ≤ index := by omega
  have hout : flashStreamCallbackBlanked cfg maxLen index =
      applyBlankRegions index cfg.regions
        ((List.range (secureChunkLen cfg maxLen index)).map fun j => cfg.flash (index + j)) := by
    simp [flashStreamCallbackBlanked, hne, h2]
  have hlen : (flashStreamCallbackBlanked cfg maxLen index).length =
      secureChunkLen cfg maxLen index := by
    rw [hout, applyBlankRegions_length, List.length_map, List.length_range]
  refine ⟨hlen, ?_⟩
  intro j hj
  have hjn : j < secureChunkLen cfg maxLen index := hlen ▸ hj
  have hq := applyBlankRegions_getElem? index cfg.regions
    ((List.range (secureChunkLen cfg maxLen index)).map fun j => cfg.flash (index + j)) j
  have hbase : ((List.range (secureChunkLen cfg maxLen index)).map
      fun j => cfg.flash (index + j))[j]? = some (cfg.flash (index + j)) := by
    simp [List.getElem?_map, List.getElem?_range, hjn]
  have hblen : ((List.range (secureChunkLen cfg maxLen index)).map
      fun j => cfg.flash (index + j)).length = secureChunkLen cfg maxLen index := by
    simp
  rw [hbase, hblen, ← hout, List.getElem?_eq_getElem hj] at hq
  simp only [Option.map_some'] at hq
  rw [List.get_eq_getElem]
  exact Option.some.inj hq

/-- Sample configuration used by concrete witnesses: a 12-byte flash whose
byte at address `a` is `a % 223`, with two configured regions. -/
def sampleDumpConfig : DumpConfig :=
  { flashSize := 12
    flash := fun a => a % 223
    readOk := fun _ _ => true
    regions := [⟨4, 3, "manual"⟩, ⟨100, 5, "nvs"⟩] }

/-- Witness for C3 at a concrete input. -/
theorem flashStreamCallbackBlanked_redacts_exactly_intersections_witness :
    (0 < sampleDumpConfig.flashSize ∧
      sampleDumpConfig.readOk 0 (secureChunkLen sampleDumpConfig 8 0) = true) ∧
    secureChunkSpec sampleDumpConfig 8 0 :=
  ⟨⟨by decide, rfl⟩,
    flashStreamCallbackBlanked_redacts_exactly_intersections sampleDumpConfig 8 0
      (by decide) rfl⟩

/-- C10: the plain (non-secure) full-flash dump callback never applies the
redaction overlay — its output is byte-identical for any two configurations
that differ only in the configured regions. -/
theorem flashStreamCallback_independent_of_regions
    (cfg : DumpConfig) (rs : List BlankRegion) (maxLen index : Nat) :
    flashStreamCallback { cfg with regions := rs } maxLen index =
      flashStreamCallback cfg maxLen index := rfl

/-! ## Flash-operation traces -/

/-- The flash/OTA side effects a handler can perform; each carries whether the
underlying ESP-IDF call succeeded. -/
inductive FlashOp where
  | eraseRange (addr off len : Nat) (ok : Bool)
  | partWrite (addr off len : Nat) (ok : Bool)
  | otaBegin (target : Partition) (ok : Bool)
  | otaWrite (len : Nat) (ok : Bool)
  | otaEnd (ok : Bool)
  | setBoot (addr : Nat) (ok : Bool)
deriving DecidableEq

/-- Number of `esp_ota_begin` calls in a trace. -/
def countOtaBegins (ops : List FlashOp) : Nat :=
  (ops.filter fun op => match op with | FlashOp.otaBegin _ _ => true | _ => false).length

/-! ## Upload state machine (`handleUploadBinary`) -/

/-- The static variables of `handleUploadBinary`: `ota_handle`, `otaStarted`,
`dataUpdateStarted`, `dataOffset`. -/
structure UploadState where
  otaHandle : Nat
  otaStarted : Bool
  dataUpdateStarted : Bool
  dataOffset : Nat
deriving DecidableEq

/-- The fresh state: all statics zero-initialised. -/
def UploadState.init : UploadState := ⟨0, false, false, 0⟩

/-- Environment of an upload request: the partition table, the running
partition, and success oracles for each fallible ESP-IDF call. -/
structure UploadEnv where
  table : List Partition
  running : Partition
  eraseOk : Bool
  partWriteOk : Bool
  otaBeginOk : Bool
  otaWriteOk : Bool
  otaEndOk : Bool
  setBootOk : Bool

/-- The HTTP responses `handleUploadBinary` can send (`request->send` calls). -/
inductive UploadResp where
  | badRequestMissingLabel
  | notFoundTarget
  | eraseFailed
  | dataComplete
  | activeProtected
  | otaBeginFailed
  | appComplete
deriving DecidableEq

/-- Result of one `handleUploadBinary` invocation: the new static state, the
trace of flash operations performed, the response sent (if any), and whether a
device restart was scheduled. -/
structure UploadOut where
  st : UploadState
  ops : List FlashOp
  resp : Option UploadResp
  restart : Bool
deriving DecidableEq

/-- DATA-partition write step: `esp_partition_write(target, dataOffset, data, len)`,
then `dataOffset += len`; on the final chunk report success and clear
`dataUpdateStarted`. A write failure returns without sending a response and
without advancing the offset. -/
def dataWritePhase (env : UploadEnv) (target : Partition) (st : UploadState)
    (ops : List FlashOp) (len : Nat) (final : Bool) : UploadOut :=
  if env.partWriteOk = false then
    ⟨st, ops ++ [FlashOp.partWrite target.address st.dataOffset len false], none, false⟩
  else
    let ops2 := ops ++ [FlashOp.partWrite target.address st.dataOffset len true]
    let st2 := { st with dataOffset := st.dataOffset + len }
    if final then ⟨{ st2 with dataUpdateStarted := false }, ops2, some UploadResp.dataComplete, false⟩
    else ⟨st2, ops2, none, false⟩

/-- Final-chunk step of an APP upload: `esp_ota_end`, then
`esp_ota_set_boot_partition(target)`, then the success response, resetting the
statics and scheduling the restart. On `esp_ota_end` or
`esp_ota_set_boot_partition` failure the handler returns with the statics left
as they were and no response sent. -/
def appFinalPhase (env : UploadEnv) (target : Partition) (st : UploadState)
    (ops : List FlashOp) : UploadOut :=
  if env.otaEndOk = false then ⟨st, ops ++ [FlashOp.otaEnd false], none, false⟩
  else if env.setBootOk = false then
    ⟨st, ops ++ [FlashOp.otaEnd true, FlashOp.setBoot target.address false], none, false⟩
  else
    ⟨{ st with otaHandle := 0, otaStarted := false },
      ops ++ [FlashOp.otaEnd true, FlashOp.setBoot target.address true],
      some UploadResp.appComplete, true⟩

/-- APP-partition write step: bail out when `ota_handle == 0`, then
`esp_ota_write`; on the final chunk continue with `appFinalPhase`. -/
def appWritePhase (env : UploadEnv) (target : Partition) (st : UploadState)
    (ops : List FlashOp) (len : Nat) (final : Bool) : UploadOut :=
  if st.otaHandle = 0 then ⟨st, ops, none, false⟩
  else if env.otaWriteOk = false then ⟨st, ops ++ [FlashOp.otaWrite len false], none, false⟩
  else
    let ops2 := ops ++ [FlashOp.otaWrite len true]
    if final then appFinalPhase env target st ops2 else ⟨st, ops2, none, false⟩

/-- `ESP32FirmwareDownloader::handleUploadBinary`, one chunk: resolve the label
(APP class first, then DATA), reject writes to the running APP partition,
erase-then-write for DATA targets, and a begin/write/finalize OTA session for
APP targets (with the re-entrant first-chunk guard on `otaStarted`). -/
def handleUploadBinary (env : UploadEnv) (st : UploadState) (labelOpt : Option String)
    (index len : Nat) (final : Bool) : UploadOut :=
  match labelOpt with
  | none => ⟨st, [], some UploadResp.badRequestMissingLabel, false⟩
  | some label =>
    match esp_partition_find_first env.table PType.app (some label) with
    | some target =>
      if target.address = env.running.address then
        ⟨st, [], some UploadResp.activeProtected, false⟩
      else if index = 0 then
        if st.otaStarted then ⟨st, [], none, false⟩
        else if env.otaBeginOk = false then
          ⟨{ st with otaHandle := 0, otaStarted := false },
            [FlashOp.otaBegin target false], some UploadResp.otaBeginFailed, false⟩
        else
          appWritePhase env target { st with otaHandle := 1, otaStarted := true }
            [FlashOp.otaBegin target true] len final
      else appWritePhase env target st [] len final
    | none =>
      match esp_partition_find_first env.table PType.data (some label) with
      | none => ⟨st, [], some UploadResp.notFoundTarget, false⟩
      | some target =>
        if index = 0 then
          let st1 := { st with dataUpdateStarted := true, dataOffset := 0 }
          if env.eraseOk = false then
            ⟨{ st1 with dataUpdateStarted := false },
              [FlashOp.eraseRange target.address 0 target.size false],
              some UploadResp.eraseFailed, false⟩
          else
            dataWritePhase env target st1
              [FlashOp.eraseRange target.address 0 target.size true] len final
        else dataWritePhase env target st [] len final

/-- C2: every upload chunk (first or later) whose target label resolves to the
running application partition is rejected with the active-partition-protected
response, with no flash operation performed and the statics untouched. -/
theorem handleUploadBinary_rejects_running_app
    (env : UploadEnv) (st : UploadState) (label : String) (target : Partition)
    (index len : Nat) (final : Bool)
    (hfind : esp_partition_find_first env.table PType.app (some label) = some target)
    (haddr : target.address = env.running.address) :
    handleUploadBinary env st (some label) index len final =
      ⟨st, [], some UploadResp.activeProtected, false⟩ := by
  simp [handleUploadBinary, hfind, haddr]

/-- Sample partitions and environments for concrete witnesses. -/
def appRunning : Partition := ⟨PType.app, "app0", 0x10000, 4096⟩

def appOther : Partition := ⟨PType.app, "app1", 0x20000, 4096⟩

def dataSpiffs : Partition := ⟨PType.data, "spiffs", 0x30000, 4096⟩

def sampleTable : List Partition := [appRunning, appOther, dataSpiffs]

def sampleUploadEnv : UploadEnv := ⟨sampleTable, appRunning, true, true, true, true, true, true⟩

/-- Witness for C2 at a concrete input (a later chunk, index 7). -/
theorem handleUploadBinary_rejects_running_app_witness :
    (esp_partition_find_first sampleUploadEnv.table PType.app (some "app0") = some appRunning ∧
      appRunning.address = sampleUploadEnv.running.address) ∧
    handleUploadBinary sampleUploadEnv UploadState.init (some "app0") 7 100 false =
      ⟨UploadState.init, [], some UploadResp.activeProtected, false⟩ :=
  ⟨⟨by decide, by decide⟩,
    handleUploadBinary_rejects_running_app sampleUploadEnv UploadState.init "app0" appRunning
      7 100 false (by decide) (by decide)⟩

theorem countOtaBegins_append (xs ys : List FlashOp) :
    countOtaBegins (xs ++ ys) = countOtaBegins xs + countOtaBegins ys := by
  simp [countOtaBegins, List.filter_append]

theorem countOtaBegins_dataWritePhase (env : UploadEnv) (target : Partition)
    (st : UploadState) (ops : List FlashOp) (len : Nat) (final : Bool) :
    countOtaBegins (dataWritePhase env target st ops len final).ops = countOtaBegins ops := by
  unfold dataWritePhase
  split
  · simp [countOtaBegins_append, countOtaBegins]
  · split <;> simp [countOtaBegins_append, countOtaBegins]

theorem countOtaBegins_appFinalPhase (env : UploadEnv) (target : Partition)
    (st : UploadState) (ops : List FlashOp) :
    countOtaBegins (appFinalPhase env target st ops).ops = countOtaBegins ops := by
  unfold appFinalPhase
  split
  · simp [countOtaBegins_append, countOtaBegins]
  · split <;> simp [countOtaBegins_append, countOtaBegins]

theorem countOtaBegins_appWritePhase (env : UploadEnv) (target : Partition)
    (st : UploadState) (ops : List FlashOp) (len : Nat) (final : Bool) :
    countOtaBegins (appWritePhase env target st ops len final).ops = countOtaBegins ops := by
  unfold appWritePhase
  split
  · rfl
  · split
    · simp [countOtaBegins_append, countOtaBegins]
    · split
      · rw [countOtaBegins_appFinalPhase, countOtaBegins_append]
        simp [countOtaBegins]
      · simp [countOtaBegins_append, countOtaBegins]

/-- While the upload OTA session flag is set, no upload request whatsoever
performs an `esp_ota_begin`: a first chunk to an APP target is ignored, a
chunk to the running partition is rejected, continuation chunks only write,
and DATA-path chunks only erase and write. -/
theorem upload_no_begin_while_started (env : UploadEnv) (st : UploadState)
    (labelOpt : Option String) (index len : Nat) (final : Bool)
    (h : st.otaStarted = true) :
    countOtaBegins (handleUploadBinary env st labelOpt index len final).ops = 0 := by
  match labelOpt with
  | none => simp [handleUploadBinary, countOtaBegins]
  | some label =>
    cases hfa : esp_partition_find_first env.table PType.app (some label) with
    | some target =>
      by_cases h1 : target.address = env.running.address
      · simp [handleUploadBinary, hfa, h1, countOtaBegins]
      · by_cases h2 : index = 0
        · simp [handleUploadBinary, hfa, h1, h2, h, countOtaBegins]
        · have heq : handleUploadBinary env st (some label) index len final =
              appWritePhase env target st [] len final := by
            simp [handleUploadBinary, hfa, h1, h2]
          rw [heq, countOtaBegins_appWritePhase]
          rfl
    | none =>
      cases hfd : esp_partition_find_first env.table PType.data (some label) with
      | none => simp [handleUploadBinary, hfa, hfd, countOtaBegins]
      | some target =>
        by_cases h2 : index = 0
        · by_cases h3 : env.eraseOk = false
          · simp [handleUploadBinary, hfa, hfd, h2, h3, countOtaBegins]
          · have heq : handleUploadBinary env st (some label) index len final =
                dataWritePhase env target
                  { st with dataUpdateStarted := true, dataOffset := 0 }
                  [FlashOp.eraseRange target.address 0 target.size true] len final := by
              simp [handleUploadBinary, hfa, hfd, h2, h3]
            rw [heq, countOtaBegins_dataWritePhase]
            rfl
        · have heq : handleUploadBinary env st (some label) index len final =
              dataWritePhase env target st [] len final := by
            simp [handleUploadBinary, hfa, hfd, h2]
          rw [heq, countOtaBegins_dataWritePhase]
          rfl

/-! ## Sequential upload runs (C8) -/

/-- Deliver a list of chunks to `handleUploadBinary` in order, the way the
transport does: each chunk's `index` is the number of bytes delivered before
it, and `final` is set on the last chunk. Returns the final statics and the
concatenated flash-operation trace. -/
def runUpload (env : UploadEnv) (label : String) :
    UploadState → Nat → List Nat → UploadState × List FlashOp
  | st, _, [] => (st, [])
  | st, sent, len :: rest =>
    let out := handleUploadBinary env st (some label) sent len rest.isEmpty
    let r := runUpload env label out.st (sent + len) rest
    (r.1, out.ops ++ r.2)

/-- The intended trace of the DATA write phase: chunk `k` written at the offset
equal to the sum of the lengths of all previous chunks. -/
def dataWritesFrom (addr : Nat) : Nat → List Nat → List FlashOp
  | _, [] => []
  | off, len :: rest => FlashOp.partWrite addr off len true :: dataWritesFrom addr (off + len) rest

theorem runUpload_data_step (env : UploadEnv) (label : String) (target : Partition)
    (hfa : esp_partition_find_first env.table PType.app (some label) = none)
    (hfd : esp_partition_find_first env.table PType.data (some label) = some target)
    (hw : env.partWriteOk = true) :
    ∀ (chunks : List Nat) (st : UploadState) (sent : Nat), 0 < sent →
      st.dataOffset = sent →
      (runUpload env label st sent chunks).2 = dataWritesFrom target.address sent chunks := by
  intro chunks
  induction chunks with
  | nil => intro st sent _ _; rfl
  | cons len rest ih =>
    intro st sent h1 h2
    have hne : ¬ sent = 0 := by omega
    have hops : (handleUploadBinary env st (some label) sent len rest.isEmpty).ops =
        [FlashOp.partWrite target.address sent len true] := by
      have heq : handleUploadBinary env st (some label) sent len rest.isEmpty =
          dataWritePhase env target st [] len rest.isEmpty := by
        simp [handleUploadBinary, hfa, hfd, hne]
      rw [heq]
      unfold dataWritePhase
      rw [if_neg (by simp [hw])]
      split <;> simp [h2]
    have hoff : (handleUploadBinary env st (some label) sent len rest.isEmpty).st.dataOffset =
        sent + len := by
      have heq : handleUploadBinary env st (some label) sent len rest.isEmpty =
          dataWritePhase env target st [] len rest.isEmpty := by
        simp [handleUploadBinary, hfa, hfd, hne]
      rw [heq]
      unfold dataWritePhase
      rw [if_neg (by simp [hw])]
      split <;> simp [h2]
    have hrec := ih (handleUploadBinary env st (some label) sent len rest.isEmpty).st
      (sent + len) (by omega) hoff
    simp only [runUpload]
    rw [hops, hrec]
    rfl

/-- C8: a DATA-partition upload delivered as contiguous chunks erases the full
partition range exactly once (at the chunk with index 0) and writes chunk `k`
at the offset equal to the sum of the lengths of all previous chunks — the
whole trace is one erase followed by the contiguous writes. -/
theorem data_upload_erases_once_writes_contiguously
    (env : UploadEnv) (label : String) (target : Partition) (c : Nat) (rest : List Nat)
    (st : UploadState)
    (hfa : esp_partition_find_first env.table PType.app (some label) = none)
    (hfd : esp_partition_find_first env.table PType.data (some label) = some target)
    (he : env.eraseOk = true) (hw : env.partWriteOk = true) (hc : 0 < c) :
    (runUpload env label st 0 (c :: rest)).2 =
      FlashOp.eraseRange target.address 0 target.size true ::
        dataWritesFrom target.address 0 (c :: rest) := by
  have hops : (handleUploadBinary env st (some label) 0 c rest.isEmpty).ops =
      [FlashOp.eraseRange target.address 0 target.size true,
        FlashOp.partWrite target.address 0 c true] := by
    have heq : handleUploadBinary env st (some label) 0 c rest.isEmpty =
        dataWritePhase env target { st with dataUpdateStarted := true, dataOffset := 0 }
          [FlashOp.eraseRange target.address 0 target.size true] c rest.isEmpty := by
      simp [handleUploadBinary, hfa, hfd, he]
    rw [heq]
    unfold dataWritePhase
    rw [if_neg (by simp [hw])]
    split <;> simp
  have hoff : (handleUploadBinary env st (some label) 0 c rest.isEmpty).st.dataOffset = c := by
    have heq : handleUploadBinary env st (some label) 0 c rest.isEmpty =
        dataWritePhase env target { st with dataUpdateStarted := true, dataOffset := 0 }
          [FlashOp.eraseRange target.address 0 target.size true] c rest.isEmpty := by
      simp [handleUploadBinary, hfa, hfd, he]
    rw [heq]
    unfold dataWritePhase
    rw [if_neg (by simp [hw])]
    split <;> simp
  have hrec := runUpload_data_step env label target hfa hfd hw rest
    (handleUploadBinary env st (some label) 0 c rest.isEmpty).st c hc hoff
  simp only [runUpload]
  rw [hops]
  simp only [Nat.zero_add]
  rw [hrec]
  simp [dataWritesFrom]

/-- Witness for C8: a 4096-byte DATA partition uploaded in two 2048-byte chunks
is erased once and written at offsets 0 and 2048. -/
theorem data_upload_erases_once_writes_contiguously_witness :
    (esp_partition_find_first sampleUploadEnv.table PType.app (some "spiffs") = none ∧
      esp_partition_find_first sampleUploadEnv.table PType.data (some "spiffs") =
        some dataSpiffs ∧
      sampleUploadEnv.eraseOk = true ∧ sampleUploadEnv.partWriteOk = true) ∧
    (runUpload sampleUploadEnv "spiffs" UploadState.init 0 [2048, 2048]).2 =
      FlashOp.eraseRange dataSpiffs.address 0 dataSpiffs.size true ::
        dataWritesFrom dataSpiffs.address 0 [2048, 2048] :=
  ⟨⟨by decide, by decide, rfl, rfl⟩,
    data_upload_erases_once_writes_contiguously sampleUploadEnv "spiffs" dataSpiffs
      2048 [2048] UploadState.init (by decide) (by decide) rfl rfl (by decide)⟩

/-! ## Finalize failure of an APP upload (C7) -/

/-- Like `sampleUploadEnv`, but `esp_ota_end` fails. -/
def otaEndFailEnv : UploadEnv := ⟨sampleTable, appRunning, true, true, true, true, false, true⟩

/-- Counterexample to C7 as stated: after a final chunk whose `esp_ota_end`
fails, the statics are NOT reset (`otaStarted` stays `true`), and a subsequent
upload beginning with chunk index 0 performs no `esp_ota_begin` and leaves the
state unchanged — it is ignored instead of opening a fresh write session. -/
theorem upload_finalize_failure_session_not_released :
    (handleUploadBinary otaEndFailEnv UploadState.init (some "app1") 0 10 true).st.otaStarted
        = true ∧
    countOtaBegins (handleUploadBinary otaEndFailEnv
      (handleUploadBinary otaEndFailEnv UploadState.init (some "app1") 0 10 true).st
      (some "app1") 0 10 false).ops = 0 ∧
    (handleUploadBinary otaEndFailEnv
      (handleUploadBinary otaEndFailEnv UploadState.init (some "app1") 0 10 true).st
      (some "app1") 0 10 false).st =
      (handleUploadBinary otaEndFailEnv UploadState.init (some "app1") 0 10 true).st := by
  decide

/-- What an APP upload's finalize failure actually does: the handler returns
with the statics exactly as they were (no release), no response, no
boot-pointer write; consequently, as long as `otaStarted` is still set, no
subsequent upload request opens an OTA session. -/
def finalizeFailSpec (env : UploadEnv) (st : UploadState) (label : String)
    (index len : Nat) : Prop :=
  (handleUploadBinary env st (some label) index len true).st = st ∧
  (handleUploadBinary env st (some label) index len true).resp = none ∧
  (∀ op ∈ (handleUploadBinary env st (some label) index len true).ops,
    ∀ a b, op ≠ FlashOp.setBoot a b) ∧
  (st.otaStarted = true →
    ∀ (env2 : UploadEnv) (labelOpt2 : Option String) (index2 len2 : Nat) (final2 : Bool),
      countOtaBegins (handleUploadBinary env2
        (handleUploadBinary env st (some label) index len true).st
        labelOpt2 index2 len2 final2).ops = 0)

/-- C7 (amended): on a final APP chunk whose `esp_ota_end` fails, the handler
returns without touching the boot pointer, but the session is NOT released —
the statics are unchanged, so a later first chunk cannot open a fresh session. -/
theorem upload_finalize_failure_behavior (env : UploadEnv) (st : UploadState)
    (label : String) (target : Partition) (index len : Nat)
    (hfa : esp_partition_find_first env.table PType.app (some label) = some target)
    (hne : target.address ≠ env.running.address)
    (hidx : index ≠ 0) (hh : st.otaHandle ≠ 0)
    (hw : env.otaWriteOk = true) (hend : env.otaEndOk = false) :
    finalizeFailSpec env st label index len := by
  have hmain : handleUploadBinary env st (some label) index len true =
      ⟨st, [FlashOp.otaWrite len true, FlashOp.otaEnd false], none, false⟩ := by
    simp [handleUploadBinary, hfa, hne, hidx, appWritePhase, hh, hw, appFinalPhase, hend]
  refine ⟨by rw [hmain], by rw [hmain], ?_, ?_⟩
  · rw [hmain]
    intro op hop a b
    simp only [List.mem_cons, List.not_mem_nil, or_false] at hop
    rcases hop with h | h <;> subst h <;> simp
  · intro hstart env2 labelOpt2 index2 len2 final2
    rw [hmain]
    exact upload_no_begin_while_started env2 st labelOpt2 index2 len2 final2 hstart

/-- Witness for C7's amended theorem at a concrete input. -/
theorem upload_finalize_failure_behavior_witness :
    (esp_partition_find_first otaEndFailEnv.table PType.app (some "app1") = some appOther ∧
      appOther.address ≠ otaEndFailEnv.running.address ∧
      (10 : Nat) ≠ 0 ∧ (⟨1, true, false, 0⟩ : UploadState).otaHandle ≠ 0 ∧
      otaEndFailEnv.otaWriteOk = true ∧ otaEndFailEnv.otaEndOk = false) ∧
    finalizeFailSpec otaEndFailEnv ⟨1, true, false, 0⟩ "app1" 10 5 :=
  ⟨⟨by decide, by decide, by decide, by decide, rfl, rfl⟩,
    upload_finalize_failure_behavior otaEndFailEnv ⟨1, true, false, 0⟩ "app1" appOther 10 5
      (by decide) (by decide) (by decide) (by decide) rfl rfl⟩

/-! ## Clone engine (`cloneActiveToInactive`) -/

/-- Environment of a clone request: partition table, running partition, and
success oracles for `esp_flash_read(addr, len)`, `esp_ota_begin`,
`esp_ota_write` (keyed by the byte offset already copied), `esp_ota_end` and
`esp_ota_set_boot_partition`. -/
structure CloneEnv where
  table : List Partition
  running : Partition
  readOk : Nat → Nat → Bool
  otaBeginOk : Bool
  otaWriteOk : Nat → Bool
  otaEndOk : Bool
  setBootOk : Bool

/-- The distinct failure exits of `cloneActiveToInactive` (one per
`return false` site, distinguishable by their log messages). -/
inductive CloneErr where
  | inactiveNotFound
  | readInactiveFailed
  | beginFailed
  | readFailed
  | writeFailed
  | endFailed
  | setBootFailed
deriving DecidableEq

/-- Result of a clone request: the failure exit taken (if any), the trace of
OTA operations, the number of bytes handed to `esp_ota_write`, and whether
`esp_ota_set_boot_partition` was called. -/
structure CloneResult where
  err : Option CloneErr
  ops : List FlashOp
  bytesWritten : Nat
  bootSetAttempted : Bool
deriving DecidableEq

/-- The copy loop `while (bytesRead < totalSize)` of `cloneActiveToInactive`:
each iteration reads `min(remaining, CHUNK_SIZE)` bytes of the running
partition and hands them to `esp_ota_write`, aborting on the first failure.
The first argument is fuel; since every iteration consumes at least one byte,
`fuel = remaining` always suffices. Returns the failure (if any), the trace of
`esp_ota_write` calls, and the number of bytes successfully written. -/
def cloneLoop (env : CloneEnv) : Nat → Nat → Nat → Option CloneErr × List FlashOp × Nat
  | 0, _, _ => (none, [], 0)
  | fuel + 1, bytesRead, remaining =>
    if remaining = 0 then (none, [], 0)
    else if env.readOk (env.running.address + bytesRead) (min remaining CHUNK_SIZE) = false then
      (some CloneErr.readFailed, [], 0)
    else if env.otaWriteOk bytesRead = false then
      (some CloneErr.writeFailed, [FlashOp.otaWrite (min remaining CHUNK_SIZE) false], 0)
    else
      let r := cloneLoop env fuel (bytesRead + min remaining CHUNK_SIZE)
        (remaining - min remaining CHUNK_SIZE)
      (r.1, FlashOp.otaWrite (min remaining CHUNK_SIZE) true :: r.2.1,
        min remaining CHUNK_SIZE + r.2.2)

/-- `cloneActiveToInactive`: find the first APP partition whose address differs
from the running one; if none, fail. Probe its first byte, open an OTA session
against it sized to the running partition, copy chunkwise, finalize, and only
then repoint the boot partition. -/
def cloneActiveToInactive (env : CloneEnv) : CloneResult :=
  match findInactive env.table env.running with
  | none => ⟨some CloneErr.inactiveNotFound, [], 0, false⟩
  | some inactive =>
    if env.readOk inactive.address 1 = false then
      ⟨some CloneErr.readInactiveFailed, [], 0, false⟩
    else if env.otaBeginOk = false then
      ⟨some CloneErr.beginFailed, [FlashOp.otaBegin inactive false], 0, false⟩
    else
      let r := cloneLoop env env.running.size 0 env.running.size
      match r.1 with
      | some e => ⟨some e, FlashOp.otaBegin inactive true :: r.2.1, r.2.2, false⟩
      | none =>
        if env.otaEndOk = false then
          ⟨some CloneErr.endFailed,
            (FlashOp.otaBegin inactive true :: r.2.1) ++ [FlashOp.otaEnd false], r.2.2, false⟩
        else if env.setBootOk = false then
          ⟨some CloneErr.setBootFailed,
            (FlashOp.otaBegin inactive true :: r.2.1) ++
              [FlashOp.otaEnd true, FlashOp.setBoot inactive.address false],
            r.2.2, true⟩
        else
          ⟨none,
            (FlashOp.otaBegin inactive true :: r.2.1) ++
              [FlashOp.otaEnd true, FlashOp.setBoot inactive.address true],
            r.2.2, true⟩

theorem cloneLoop_no_begin (env : CloneEnv) :
    ∀ (fuel bytesRead remaining : Nat) (p : Partition) (b : Bool),
      FlashOp.otaBegin p b ∉ (cloneLoop env fuel bytesRead remaining).2.1 := by
  intro fuel
  induction fuel with
  | zero => intro bytesRead remaining p b; simp [cloneLoop]
  | succ fuel ih =>
    intro bytesRead remaining p b
    simp only [cloneLoop]
    split
    · simp
    · split
      · simp
      · split
        · simp
        · simp only [List.mem_cons, not_or]
          exact ⟨by simp, ih _ _ p b⟩

theorem cloneLoop_none_bytes (env : CloneEnv) :
    ∀ (fuel bytesRead remaining : Nat), remaining ≤ fuel →
      (cloneLoop env fuel bytesRead remaining).1 = none →
      (cloneLoop env fuel bytesRead remaining).2.2 = remaining := by
  intro fuel
  induction fuel with
  | zero =>
    intro bytesRead remaining hle _
    have : remaining = 0 := by omega
    simp [cloneLoop, this]
  | succ fuel ih =>
    intro bytesRead remaining hle hnone
    have hchunk : 0 < CHUNK_SIZE := by decide
    by_cases h0 : remaining = 0
    · simp [cloneLoop, h0]
    · by_cases hr : env.readOk (env.running.address + bytesRead) (min remaining CHUNK_SIZE)
          = false
      · simp [cloneLoop, h0, hr] at hnone
      · by_cases hw : env.otaWriteOk bytesRead = false
        · simp [cloneLoop, h0, hr, hw] at hnone
        · have hnone2 : (cloneLoop env fuel (bytesRead + min remaining CHUNK_SIZE)
              (remaining - min remaining CHUNK_SIZE)).1 = none := by
            simpa [cloneLoop, h0, hr, hw] using hnone
          have hbytes := ih (bytesRead + min remaining CHUNK_SIZE)
            (remaining - min remaining CHUNK_SIZE) (by omega) hnone2
          simp only [cloneLoop]
          rw [if_neg h0, if_neg hr, if_neg hw]
          simp [hbytes]

/-- C1: `clone()` never opens a write session against the running partition —
every `esp_ota_begin` in its trace targets an APP partition whose base address
differs from the running partition's — and when no other APP partition exists
it fails at the not-found exit without any `esp_ota_begin`. -/
theorem clone_never_targets_running (env : CloneEnv) :
    (∀ (p : Partition) (b : Bool),
      FlashOp.otaBegin p b ∈ (cloneActiveToInactive env).ops →
        p.ptype = PType.app ∧ p.address ≠ env.running.address) ∧
    (findInactive env.table env.running = none →
      (cloneActiveToInactive env).err = some CloneErr.inactiveNotFound ∧
      ∀ (p : Partition) (b : Bool),
        FlashOp.otaBegin p b ∉ (cloneActiveToInactive env).ops) := by
  cases hfi : findInactive env.table env.running with
  | none =>
    refine ⟨?_, fun _ => ⟨?_, ?_⟩⟩ <;> simp [cloneActiveToInactive, hfi]
  | some inactive =>
    have hprop := findInactive_app_ne_running hfi
    refine ⟨?_, fun hcon => absurd hcon (by simp)⟩
    intro p b hmem
    simp only [cloneActiveToInactive, hfi] at hmem
    have hloop := cloneLoop_no_begin env env.running.size 0 env.running.size p b
    by_cases h1 : env.readOk inactive.address 1 = false
    · rw [if_pos h1] at hmem
      simp at hmem
    · rw [if_neg h1] at hmem
      by_cases h2 : env.otaBeginOk = false
      · rw [if_pos h2] at hmem
        simp only [List.mem_singleton] at hmem
        rw [FlashOp.otaBegin.injEq] at hmem
        obtain ⟨hp, _⟩ := hmem
        subst hp
        exact hprop
      · rw [if_neg h2] at hmem
        cases hl : (cloneLoop env env.running.size 0 env.running.size).1 with
        | some e =>
          simp only [hl] at hmem
          simp only [List.mem_cons] at hmem
          rcases hmem with h | h
          · rw [FlashOp.otaBegin.injEq] at h
            obtain ⟨hp, _⟩ := h
            subst hp
            exact hprop
          · exact absurd h hloop
        | none =>
          simp only [hl] at hmem
          by_cases h3 : env.otaEndOk = false
          · rw [if_pos h3] at hmem
            simp only [List.cons_append, List.mem_cons, List.mem_append] at hmem
            rcases hmem with h | h | h
            · rw [FlashOp.otaBegin.injEq] at h
              obtain ⟨hp, _⟩ := h
              subst hp
              exact hprop
            · exact absurd h hloop
            · simp at h
          · rw [if_neg h3] at hmem
            by_cases h4 : env.setBootOk = false
            · rw [if_pos h4] at hmem
              simp only [List.cons_append, List.mem_cons, List.mem_append] at hmem
              rcases hmem with h | h | h
              · rw [FlashOp.otaBegin.injEq] at h
                obtain ⟨hp, _⟩ := h
                subst hp
                exact hprop
              · exact absurd h hloop
              · simp at h
            · rw [if_neg h4] at hmem
              simp only [List.cons_append, List.mem_cons, List.mem_append] at hmem
              rcases hmem with h | h | h
              · rw [FlashOp.otaBegin.injEq] at h
                obtain ⟨hp, _⟩ := h
                subst hp
                exact hprop
              · exact absurd h hloop
              · simp at h

/-- A table holding only the running partition, and the all-succeeding clone
environment over it. -/
def loneCloneEnv : CloneEnv :=
  ⟨[appRunning], appRunning, fun _ _ => true, true, fun _ => true, true, true⟩

/-- Witness for C1: with a single APP partition, clone fails at the not-found
exit and opens no session. -/
theorem clone_never_targets_running_witness :
    findInactive loneCloneEnv.table loneCloneEnv.running = none ∧
    ((cloneActiveToInactive loneCloneEnv).err = some CloneErr.inactiveNotFound ∧
      ∀ (p : Partition) (b : Bool),
        FlashOp.otaBegin p b ∉ (cloneActiveToInactive loneCloneEnv).ops) :=
  ⟨by decide, (clone_never_targets_running loneCloneEnv).2 (by decide)⟩

/-- C4: `esp_ota_set_boot_partition` is attempted only after the full size of
the running partition was written and `esp_ota_end` succeeded; any earlier
failure (lookup, probe read, begin, read, write, end) leaves the boot pointer
untouched and reports failure. -/
theorem clone_boot_pointer_only_after_full_copy (env : CloneEnv) :
    ((cloneActiveToInactive env).bootSetAttempted = true →
      (cloneActiveToInactive env).bytesWritten = env.running.size ∧
        env.otaEndOk = true) ∧
    (∀ e, (cloneActiveToInactive env).err = some e → e ≠ CloneErr.setBootFailed →
      (cloneActiveToInactive env).bootSetAttempted = false) := by
  cases hfi : findInactive env.table env.running with
  | none => refine ⟨?_, ?_⟩ <;> simp [cloneActiveToInactive, hfi]
  | some inactive =>
    simp only [cloneActiveToInactive, hfi]
    by_cases h1 : env.readOk inactive.address 1 = false
    · refine ⟨?_, ?_⟩ <;> simp [h1]
    · by_cases h2 : env.otaBeginOk = false
      · refine ⟨?_, ?_⟩ <;> simp [h1, h2]
      · rw [if_neg h1, if_neg h2]
        cases hl : (cloneLoop env env.running.size 0 env.running.size).1 with
        | some e => refine ⟨?_, ?_⟩ <;> simp [hl]
        | none =>
          have hbytes := cloneLoop_none_bytes env env.running.size 0 env.running.size
            (Nat.le_refl _) hl
          by_cases h3 : env.otaEndOk = false
          · refine ⟨?_, ?_⟩ <;> simp [hl, h3]
          · by_cases h4 : env.setBootOk = false
            · refine ⟨?_, ?_⟩ <;> simp [hl, h3, h4, hbytes]
            · refine ⟨?_, ?_⟩ <;> simp [hl, h3, h4, hbytes]

/-- All-succeeding clone environment over the sample table. -/
def sampleCloneEnv : CloneEnv :=
  ⟨sampleTable, appRunning, fun _ _ => true, true, fun _ => true, true, true⟩

/-- Clone environment whose `esp_ota_write` always fails. -/
def cloneWriteFailEnv : CloneEnv :=
  ⟨sampleTable, appRunning, fun _ _ => true, true, fun _ => false, true, true⟩

/-- Witness for C4: on the all-ok run the boot write happens after the full
copy; on a write-failing run clone fails and never touches the boot pointer. -/
theorem clone_boot_pointer_only_after_full_copy_witness :
    ((cloneActiveToInactive sampleCloneEnv).bootSetAttempted = true ∧
      ((cloneActiveToInactive sampleCloneEnv).bytesWritten = sampleCloneEnv.running.size ∧
        sampleCloneEnv.otaEndOk = true)) ∧
    ((cloneActiveToInactive cloneWriteFailEnv).err = some CloneErr.writeFailed ∧
      (cloneActiveToInactive cloneWriteFailEnv).bootSetAttempted = false) :=
  ⟨⟨by decide, (clone_boot_pointer_only_after_full_copy sampleCloneEnv).1 (by decide)⟩,
    ⟨by decide,
      (clone_boot_pointer_only_after_full_copy cloneWriteFailEnv).2 CloneErr.writeFailed
        (by decide) (by decide)⟩⟩

/-! ## Interleaving of upload and clone requests (C5) -/

/-- A request arriving at the single-threaded callback context: one upload
chunk, or a clone request. -/
inductive Request where
  | uploadReq (labelOpt : Option String) (index len : Nat) (final : Bool)
  | cloneReq
deriving DecidableEq

/-- One step of the single-threaded system: an upload chunk mutates the upload
statics and emits its trace; a clone request runs `cloneActiveToInactive` to
completion (it shares no state with the upload statics) and emits its trace. -/
def sysStep (uenv : UploadEnv) (cenv : CloneEnv) (st : UploadState) :
    Request → UploadState × List FlashOp
  | Request.uploadReq labelOpt index len final =>
    ((handleUploadBinary uenv st labelOpt index len final).st,
      (handleUploadBinary uenv st labelOpt index len final).ops)
  | Request.cloneReq => (st, (cloneActiveToInactive cenv).ops)

/-- Run a sequence of requests, concatenating the traces. -/
def sysRun (uenv : UploadEnv) (cenv : CloneEnv) :
    UploadState → List Request → UploadState × List FlashOp
  | st, [] => (st, [])
  | st, req :: rest =>
    let s := sysStep uenv cenv st req
    let r := sysRun uenv cenv s.1 rest
    (r.1, s.2 ++ r.2)

/-- Number of OTA write sessions open before each operation of the trace (and
after the last): a successful `esp_ota_begin` opens one, an `esp_ota_end`
call closes one. -/
def openSessionCounts : Nat → List FlashOp → List Nat
  | c, [] => [c]
  | c, FlashOp.otaBegin _ true :: rest => c :: openSessionCounts (c + 1) rest
  | c, FlashOp.otaEnd _ :: rest => c :: openSessionCounts (c - 1) rest
  | c, _ :: rest => c :: openSessionCounts c rest

/-- The largest number of simultaneously open OTA write sessions over a trace. -/
def maxOpenSessions (ops : List FlashOp) : Nat :=
  (openSessionCounts 0 ops).foldl max 0

/-- Counterexample to C5 as stated: from the fresh state, an upload first chunk
(which opens a write session and leaves the state Writing) followed by a clone
request yields a trace in which two OTA write sessions are simultaneously open
— the clone request is neither rejected nor ignored while the upload session
is open. -/
theorem clone_during_upload_opens_second_session :
    (sysStep sampleUploadEnv sampleCloneEnv UploadState.init
        (Request.uploadReq (some "app1") 0 100 false)).1.otaStarted = true ∧
    maxOpenSessions (sysRun sampleUploadEnv sampleCloneEnv UploadState.init
      [Request.uploadReq (some "app1") 0 100 false, Request.cloneReq]).2 = 2 := by
  decide

/-- What the guard actually ensures: no upload request opens an OTA session
while the upload session flag is set. -/
def noSecondUploadSessionSpec (uenv : UploadEnv) (cenv : CloneEnv) (st : UploadState)
    (labelOpt : Option String) (index len : Nat) (final : Bool) : Prop :=
  countOtaBegins (sysStep uenv cenv st (Request.uploadReq labelOpt index len final)).2 = 0

/-- C5 (amended): while an upload write session is open (`otaStarted`), any
further upload request — first chunk or not — performs no `esp_ota_begin`;
the clone path, however, is not guarded (see the counterexample). -/
theorem upload_requests_never_open_second_session (uenv : UploadEnv) (cenv : CloneEnv)
    (st : UploadState) (labelOpt : Option String) (index len : Nat) (final : Bool)
    (h : st.otaStarted = true) :
    noSecondUploadSessionSpec uenv cenv st labelOpt index len final :=
  upload_no_begin_while_started uenv st labelOpt index len final h

/-- Witness for C5's amended theorem at a concrete input. -/
theorem upload_requests_never_open_second_session_witness :
    (⟨1, true, false, 0⟩ : UploadState).otaStarted = true ∧
    noSecondUploadSessionSpec sampleUploadEnv sampleCloneEnv ⟨1, true, false, 0⟩
      (some "app1") 0 50 false :=
  ⟨rfl, upload_requests_never_open_second_session sampleUploadEnv sampleCloneEnv
    ⟨1, true, false, 0⟩ (some "app1") 0 50 false rfl⟩

/-! ## Boot activation (`handleActivatePartition`) -/

/-- `ESP_IMAGE_HEADER_MAGIC`. -/
def ESP_IMAGE_HEADER_MAGIC : Nat := 0xE9

/-- Environment of an activation request: table, running partition, flash
contents, a read-success oracle for the one-byte probe, and the
`esp_ota_set_boot_partition` success oracle. -/
structure ActivateEnv where
  table : List Partition
  running : Partition
  flash : Nat → Nat
  readOk : Nat → Bool
  setBootOk : Bool

/-- `isPartitionValid`: read the partition's first byte (false on read error)
and compare it with the image-header magic. -/
def isPartitionValid (env : ActivateEnv) (p : Partition) : Bool :=
  env.readOk p.address && (env.flash p.address == ESP_IMAGE_HEADER_MAGIC)

/-- The responses of `handleActivatePartition` (one per `request->send` site). -/
inductive ActivateResp where
  | notFound
  | alreadyRunning
  | inactiveNotFound
  | partitionUnavailable
  | setBootFailed
  | activated
deriving DecidableEq

/-- Target resolution of `handleActivatePartition`: with a `label` parameter,
look the APP partition up by label (404 when absent, 400 when it is the
running one); without one, take the first APP partition whose address differs
from the running one (500 when absent). -/
def resolveActivateTarget (env : ActivateEnv) (labelOpt : Option String) :
    Except ActivateResp Partition :=
  match labelOpt with
  | some label =>
    match esp_partition_find_first env.table PType.app (some label) with
    | none => Except.error ActivateResp.notFound
    | some target =>
      if target.address = env.running.address then Except.error ActivateResp.alreadyRunning
      else Except.ok target
  | none =>
    match findInactive env.table env.running with
    | none => Except.error ActivateResp.inactiveNotFound
    | some target => Except.ok target

/-- Result of an activation request: response, whether
`esp_ota_set_boot_partition` was called, and whether a restart follows. -/
structure ActivateOut where
  resp : ActivateResp
  bootSetAttempted : Bool
  restart : Bool
deriving DecidableEq

/-- `ESP32FirmwareDownloader::handleActivatePartition`: resolve the target,
validate its first byte, and only then set the boot partition and reboot. -/
def handleActivatePartition (env : ActivateEnv) (labelOpt : Option String) : ActivateOut :=
  match resolveActivateTarget env labelOpt with
  | Except.error e => ⟨e, false, false⟩
  | Except.ok target =>
    if isPartitionValid env target = false then
      ⟨ActivateResp.partitionUnavailable, false, false⟩
    else if env.setBootOk = false then ⟨ActivateResp.setBootFailed, true, false⟩
    else ⟨ActivateResp.activated, true, true⟩

/-- C9: for every activation request whose resolved target's first byte is not
the image-header magic, the handler answers partition-unavailable and never
attempts the boot-pointer write. -/
theorem activate_rejects_missing_magic (env : ActivateEnv) (labelOpt : Option String)
    (target : Partition)
    (hres : resolveActivateTarget env labelOpt = Except.ok target)
    (hread : env.readOk target.address = true)
    (hmagic : env.flash target.address ≠ ESP_IMAGE_HEADER_MAGIC) :
    handleActivatePartition env labelOpt =
      ⟨ActivateResp.partitionUnavailable, false, false⟩ := by
  have hval : isPartitionValid env target = false := by
    simp [isPartitionValid, hread, hmagic]
  simp [handleActivatePartition, hres, hval]

/-- Activation environment whose flash bytes are all zero (so no partition
carries the image magic). -/
def sampleActivateEnv : ActivateEnv :=
  ⟨sampleTable, appRunning, fun _ => 0, fun _ => true, true⟩

/-- Witness for C9 at a concrete input. -/
theorem activate_rejects_missing_magic_witness :
    (resolveActivateTarget sampleActivateEnv (some "app1") = Except.ok appOther ∧
      sampleActivateEnv.readOk appOther.address = true ∧
      sampleActivateEnv.flash appOther.address ≠ ESP_IMAGE_HEADER_MAGIC) ∧
    handleActivatePartition sampleActivateEnv (some "app1") =
      ⟨ActivateResp.partitionUnavailable, false, false⟩ :=
  ⟨⟨rfl, rfl, by decide⟩,
    activate_rejects_missing_magic sampleActivateEnv (some "app1") appOther
      rfl rfl (by decide)⟩

/-! ## Rebuild behavior of the region-configuration calls (C6) -/

/-- A table with a single DATA partition labelled "nvs". -/
def nvsTable : List Partition := [⟨PType.data, "nvs", 0x9000, 0x5000⟩]

/-- Counterexample to C6 as stated: after `setBlankRegion(0, 1)` followed by
`autoSetUserDataBlankAll()` over a table with an "nvs" partition, the manual
region from the earlier configuration call is still in the set — the call
appended rather than rebuilding from scratch. -/
theorem autoSetUserDataBlankAll_keeps_earlier_regions :
    (⟨0, 1, "manual"⟩ : BlankRegion) ∈
      (autoSetUserDataBlankAll nvsTable (setBlankRegion [] 0 1)).1 ∧
    (autoSetUserDataBlankAll nvsTable (setBlankRegion [] 0 1)).1 =
      [⟨0, 1, "manual"⟩, ⟨0x9000, 0x5000, "nvs"⟩] := by
  decide

theorem addBlankRegion_take (rs : List BlankRegion) (o l : Nat) (d : String) (n : Nat)
    (h : n ≤ rs.length) :
    (addBlankRegion rs o l d).take n = rs.take n ∧ n ≤ (addBlankRegion rs o l d).length := by
  unfold addBlankRegion
  split
  · constructor
    · exact List.take_append_of_le_length h
    · simp
      omega
  · exact ⟨rfl, h⟩

theorem foldl_blankAllStep_take (table : List Partition) (n : Nat) :
    ∀ (ls : List String) (acc : List BlankRegion × Bool), n ≤ acc.1.length →
      (ls.foldl (blankAllStep table) acc).1.take n = acc.1.take n ∧
        n ≤ (ls.foldl (blankAllStep table) acc).1.length := by
  intro ls
  induction ls with
  | nil => intro acc h; exact ⟨rfl, h⟩
  | cons l rest ih =>
    intro acc h
    simp only [List.foldl_cons]
    cases hf : esp_partition_find_first table PType.data (some l) with
    | none =>
      have hstep : blankAllStep table acc l = acc := by simp [blankAllStep, hf]
      rw [hstep]
      exact ih acc h
    | some p =>
      have hstep : blankAllStep table acc l = (addBlankRegion acc.1 p.address p.size l, true) := by
        simp [blankAllStep, hf]
      rw [hstep]
      obtain ⟨htake, hlen⟩ := addBlankRegion_take acc.1 p.address p.size l n h
      obtain ⟨htake2, hlen2⟩ := ih (addBlankRegion acc.1 p.address p.size l, true) hlen
      exact ⟨htake2.trans htake, hlen2⟩

/-- What the configuration calls actually do to the region set. -/
def regionRebuildSpec (table : List Partition) (regs : List BlankRegion)
    (offset length : Nat) : Prop :=
  setBlankRegion regs offset length = [⟨offset, length, "manual"⟩] ∧
  (∀ p, esp_partition_find_first table PType.data (some "userdata") = some p →
    (autoSetUserDataBlank table regs).1 = [⟨p.address, p.size, "userdata"⟩]) ∧
  (esp_partition_find_first table PType.data (some "userdata") = none →
    (autoSetUserDataBlank table regs).1 = regs) ∧
  (autoSetUserDataBlankAll table regs).1.take regs.length = regs

/-- C6 (amended): `setBlankRegion`, and `autoSetUserDataBlank` when the
"userdata" partition exists, rebuild the set from scratch to exactly the
regions of that call; `autoSetUserDataBlank` leaves the set untouched when the
partition is absent; and `autoSetUserDataBlankAll` never clears the set — the
earlier regions remain as a prefix of the result. -/
theorem region_configuration_rebuild_behavior (table : List Partition)
    (regs : List BlankRegion) (offset length : Nat) :
    regionRebuildSpec table regs offset length := by
  refine ⟨?_, ?_, ?_, ?_⟩
  · simp [setBlankRegion, addBlankRegion, MAX_BLANK_REGIONS]
  · intro p hp
    simp [autoSetUserDataBlank, hp, addBlankRegion, MAX_BLANK_REGIONS]
  · intro hp
    simp [autoSetUserDataBlank, hp]
  · have h := (foldl_blankAllStep_take table regs.length ["nvs", "spiffs", "littlefs"]
      (regs, false) (Nat.le_refl _)).1
    unfold autoSetUserDataBlankAll
    rw [h]
    exact List.take_length regs

/-- Witness for C6's amended theorem at a concrete input. -/
theorem region_configuration_rebuild_behavior_witness :
    (esp_partition_find_first nvsTable PType.data (some "userdata") = none) ∧
    (setBlankRegion [⟨5, 5, "x"⟩] 0 1 = [⟨0, 1, "manual"⟩] ∧
      (autoSetUserDataBlank nvsTable [⟨5, 5, "x"⟩]).1 = [⟨5, 5, "x"⟩] ∧
      (autoSetUserDataBlankAll nvsTable [⟨5, 5, "x"⟩]).1.take 1 = [⟨5, 5, "x"⟩]) :=
  ⟨by decide,
    (region_configuration_rebuild_behavior nvsTable [⟨5, 5, "x"⟩] 0 1).1,
    (region_configuration_rebuild_behavior nvsTable [⟨5, 5, "x"⟩] 0 1).2.2.1 (by decide),
    (region_configuration_rebuild_behavior nvsTable [⟨5, 5, "x"⟩] 0 1).2.2.2⟩

end ESP32FWDL
